import Mathlib

/-!
# Verification development for the runxml in-situ XML parser

This file gives a shallow embedding, in Lean 4, of the core of the runxml
parser (package `runxml`): the byte-classification lookup tables, the in-place
entity-expansion scanner `skipAndExpandCharacterRefs`, the recursive-descent
parsing engine (`Parse`, `parseNode`, `parseElement`, `parseAttributes`,
`parseNodeContents`, `parseAndAppendData` and the auxiliary node parsers), the
tree traversal primitives (`SendChildElements`, `SendCloseChildren`,
`CountChildren`) and the attribute-chain mutation operations
(`AppendAttribute`, `PrependAttribute`, `InsertAttribute`).

Conventions of the embedding:
* Bytes are `Nat` values below 256; byte buffers are `List Nat`.
* Go slices `data[a:b]` become `(data.drop a).take (b - a)`.
* The Go parser mutates `r.data` in place during entity expansion; the
  embedding threads the buffer explicitly through a state record.
* Go functions that can return a `nil`-slice error or panic are embedded with
  an explicit error value (`Except` / a success flag).
* Unchecked Go byte reads `r.data[r.position]` are embedded as `getD pos 0`:
  out of range they produce the NUL sentinel 0, which every lookup table
  rejects; within the executions studied here the index is always in range.
* Go loops that are not structurally decreasing are given explicit fuel; all
  concrete runs below use ample fuel, and fuel exhaustion is a distinguished
  error that never occurs in them.
-/

namespace RunXML

/-! ## Byte classification tables

The Go source declares these as literal 256-entry 0/1 arrays.  Each table is
embedded as its characteristic predicate; the comment on each gives the exact
set of indices at which the source table holds 0.
-/

/-- Table `lookupWhitespace`: 1 exactly at tab 9, LF 10, CR 13, space 32. -/
def lookupWhitespace (c : Nat) : Bool :=
  c = 9 || c = 10 || c = 13 || c = 32

/-- Table `lookupNodeName`: 0 exactly at 0, 9, 10, 13, 32, 47 (slash), 62, 63
(greater-than and question mark); 1 elsewhere (any byte below 256). -/
def lookupNodeName (c : Nat) : Bool :=
  !(c = 0 || c = 9 || c = 10 || c = 13 || c = 32 || c = 47 || c = 62 || c = 63)

/-- Table `lookupAttributeName`: 0 exactly at 0, 9, 10, 13, 32, 33, 47, 60, 61, 62,
63; 1 elsewhere. -/
def lookupAttributeName (c : Nat) : Bool :=
  !(c = 0 || c = 9 || c = 10 || c = 13 || c = 32 || c = 33 || c = 47 ||
    c = 60 || c = 61 || c = 62 || c = 63)

/-- Table `lookupAttributeDataSQ`: 0 exactly at 0 and 39 (single quote). -/
def lookupAttributeDataSQ (c : Nat) : Bool := !(c = 0 || c = 39)

/-- Table `lookupAttributeDataSQPure`: 0 exactly at 0, 38 (ampersand), 39. -/
def lookupAttributeDataSQPure (c : Nat) : Bool := !(c = 0 || c = 38 || c = 39)

/-- Table `lookupAttributeDataDQ`: 0 exactly at 0 and 34 (double quote). -/
def lookupAttributeDataDQ (c : Nat) : Bool := !(c = 0 || c = 34)

/-- Table `lookupAttributeDataDQPure`: 0 exactly at 0, 34, 38. -/
def lookupAttributeDataDQPure (c : Nat) : Bool := !(c = 0 || c = 34 || c = 38)

/-- Table `lookupText`: 0 exactly at 0 and 60 (less-than). -/
def lookupText (c : Nat) : Bool := !(c = 0 || c = 60)

/-- Table `lookupTextPureNoWS`: 0 exactly at 0, 38, 60. -/
def lookupTextPureNoWS (c : Nat) : Bool := !(c = 0 || c = 38 || c = 60)

/-! ## Scanner helpers -/

/-- Kernel-computable core of `skipGo`: the countdown argument is
`data.length + 1 - pos`, which is positive whenever `pos ≤ data.length`, so
the `0` case coincides with the `pos > length` fall-off case. -/
def skipFrom (table : Nat → Bool) (data : List Nat) : Nat → Nat → Nat
  | 0, pos => pos - 1
  | n + 1, pos =>
    if h : pos < data.length then
      if table (data.get ⟨pos, h⟩) then skipFrom table data n (pos + 1) else pos
    else pos - 1

/-- Method `(*RunXML).skip(table)`: advance the position while the table accepts the
current byte; on falling off the end of the buffer the source decrements the
position once (to `len-1`) so later unchecked reads do not crash. -/
def skipGo (table : Nat → Bool) (data : List Nat) (pos : Nat) : Nat :=
  skipFrom table data (data.length + 1 - pos) pos

/-- Function `bytes.HasPrefix(l, p)` of the Go standard library. -/
def hasPfx : List Nat → List Nat → Bool
  | _, [] => true
  | [], _ :: _ => false
  | a :: as, b :: bs => a = b && hasPfx as bs

/-- Read of `r.data[r.position]` via `getD`; see the header note on unchecked reads. -/
def curByte (data : List Nat) (pos : Nat) : Nat := data.getD pos 0

/-! ## The in-place entity expansion scanner

`skipAndExpandCharacterRefs` keeps a read cursor (`pos`, the source's
`r.position`) and a write cursor (`trail`) into the *same* buffer.  Every
write the source performs is of the form `r.data[trail] = b`; the embedding
funnels all of them through `wByte`, which also appends the pair
`(trail, pos)` — write index and read position at the moment of the write —
to an audit log, so that "every write happens at `trail`, behind the read
cursor" can be stated as a theorem about the log. -/

structure ExpSt where
  data : List Nat
  pos : Nat
  trail : Nat
  log : List (Nat × Nat)
deriving Repr

/-- The single write primitive: `r.data[trail] = b` plus the audit log. -/
def wByte (s : ExpSt) (b : Nat) : ExpSt :=
  { s with data := s.data.set s.trail b, log := (s.trail, s.pos) :: s.log }

/-- Entity branch for `&a...` (`&amp;` or `&apos;`); entered with `pos` on the
byte `a`.  `&amp;` advances past the reference writing nothing (the raw byte
at `trail` is kept); `&apos;` writes a backslash (92) at `trail` — the
upstream quirk. -/
def caseA (s : ExpSt) : ExpSt :=
  if s.data.length ≤ s.pos + 1 then
    if hasPfx (s.data.drop s.pos) [112, 111, 115, 59] then
      let sw := wByte s 92
      { sw with pos := sw.pos + 3 }
    else s
  else
    let s1 : ExpSt := { s with pos := s.pos + 1 }
    if hasPfx (s1.data.drop s1.pos) [109, 112, 59] then { s1 with pos := s1.pos + 2 }
    else if hasPfx (s1.data.drop s1.pos) [112, 111, 115, 59] then
      let sw := wByte s1 92
      { sw with pos := sw.pos + 3 }
    else s1

/-- Entity branch for `&q...` (`&quot;`); the source advances past the
reference but writes nothing at `trail`. -/
def caseQ (s : ExpSt) : ExpSt :=
  if s.data.length ≤ s.pos + 1 then s
  else
    let s1 : ExpSt := { s with pos := s.pos + 1 }
    if hasPfx (s1.data.drop s1.pos) [117, 111, 116, 59] then { s1 with pos := s1.pos + 3 }
    else s1

/-- Entity branch for `&g...` (`&gt;`): writes 62 at `trail`. -/
def caseG (s : ExpSt) : ExpSt :=
  if s.data.length ≤ s.pos + 1 then s
  else
    let s1 : ExpSt := { s with pos := s.pos + 1 }
    if hasPfx (s1.data.drop s1.pos) [116, 59] then
      let sw := wByte s1 62
      { sw with pos := sw.pos + 1 }
    else s1

/-- Entity branch for `&l...` (`&lt;`): writes 60 at `trail`. -/
def caseL (s : ExpSt) : ExpSt :=
  if s.data.length ≤ s.pos + 1 then s
  else
    let s1 : ExpSt := { s with pos := s.pos + 1 }
    if hasPfx (s1.data.drop s1.pos) [116, 59] then
      let sw := wByte s1 60
      { sw with pos := sw.pos + 1 }
    else s1

/-- The dispatch part of one loop iteration: the `if c == 38` / `switch`
block of the source (38 is the ampersand).  On an ampersand the read cursor
first advances one byte (`getNextByte`) and the byte found there selects the
entity case — 97 `a`, 113 `q`, 103 `g`, 108 `l`, the NUL sentinel 0 (source
panics, flag `false`), or any other byte (`default:` — only the write cursor
advances, `trail++`).  On a non-ampersand, if the write cursor lags the read
cursor the current byte is copied back to `trail`. -/
def expandBranch (s : ExpSt) (c : Nat) : ExpSt × Bool :=
  if c = 38 then
    let sA : ExpSt := { s with pos := s.pos + 1 }
    let c2 := curByte sA.data sA.pos
    if c2 = 97 then (caseA sA, true)
    else if c2 = 113 then (caseQ sA, true)
    else if c2 = 103 then (caseG sA, true)
    else if c2 = 108 then (caseL sA, true)
    else if c2 = 0 then (sA, false)
    else ({ sA with trail := sA.trail + 1 }, true)
  else if s.trail < s.pos then (wByte s (curByte s.data s.pos), true)
  else (s, true)

/-- The tail of one loop iteration: `if c = r.getNextByte(); c == 0 { return
nil }` followed by `trail++`. -/
def expandTail (p : ExpSt × Bool) : ExpSt × Bool :=
  match p with
  | (s1s, false) => (s1s, false)
  | (s1s, true) =>
    let s2 : ExpSt := { s1s with pos := s1s.pos + 1 }
    if curByte s2.data s2.pos = 0 then (s2, false)
    else ({ s2 with trail := s2.trail + 1 }, true)

/-- One iteration of the expansion loop body, entered with current byte `c`
already known to satisfy the stop table.  The `Bool` result is `false` when
the source returns `nil` (next byte is the NUL sentinel) or panics (`&` at
end of buffer). -/
def expandIter (s : ExpSt) (c : Nat) : ExpSt × Bool :=
  expandTail (expandBranch s c)

/-- The expansion main loop: while the stop table accepts the current byte,
run one iteration.  `Bool` result: `true` = normal exit (slice returned),
`false` = `nil` return / panic / fuel exhaustion. -/
def expandLoop (stop : Nat → Bool) : Nat → ExpSt → ExpSt × Bool
  | 0, s => (s, false)
  | fuel + 1, s =>
    let c := curByte s.data s.pos
    if stop c then
      match expandIter s c with
      | (s', false) => (s', false)
      | (s', true) => expandLoop stop fuel s'
    else (s, true)

/-- Method `(*RunXML).skipAndExpandCharacterRefs(stopPred, stopPredPure)` run on
buffer `data` at position `pos0`.  Returns the final state (buffer, read and
write cursors, write log) and the success flag. -/
def skipAndExpandCharacterRefs (stop stopPure : Nat → Bool) (data : List Nat)
    (pos0 : Nat) : ExpSt × Bool :=
  let p1 := skipGo stopPure data pos0
  expandLoop stop (data.length + 2) { data := data, pos := p1, trail := p1, log := [] }

/-- The slice `r.data[start:trail]` the source returns on success. -/
def expandResult (s : ExpSt) (start : Nat) : List Nat :=
  (s.data.drop start).take (s.trail - start)

end RunXML


namespace RunXML

/-! ## C1: the dual-cursor write invariant of the expansion scanner -/

/-- Every logged write went to an index no greater than the read position at
the moment of the write. -/
def logOK (s : ExpSt) : Prop := ∀ w ∈ s.log, w.1 ≤ w.2

lemma logOK_cons {s : ExpSt} {i p : Nat} (h : i ≤ p) (hs : logOK s) :
    ∀ w ∈ ((i, p) :: s.log), w.1 ≤ w.2 := by
  intro w hw
  rcases List.mem_cons.mp hw with h1 | h1
  · subst h1; exact h
  · exact hs w h1

lemma caseA_inv (s : ExpSt) (h : s.trail ≤ s.pos) (hl : logOK s) :
    (caseA s).trail = s.trail ∧ s.pos ≤ (caseA s).pos ∧ logOK (caseA s) := by
  simp only [caseA]
  split
  · split
    · exact ⟨rfl, by simp only [wByte]; omega, logOK_cons h hl⟩
    · exact ⟨rfl, Nat.le.refl, hl⟩
  · split
    · exact ⟨rfl, by dsimp only; omega, hl⟩
    · split
      · exact ⟨rfl, by simp only [wByte]; omega,
          logOK_cons (show s.trail ≤ s.pos + 1 from Nat.le_succ_of_le h) hl⟩
      · exact ⟨rfl, by dsimp only; omega, hl⟩

lemma caseQ_inv (s : ExpSt) (h : s.trail ≤ s.pos) (hl : logOK s) :
    (caseQ s).trail = s.trail ∧ s.pos ≤ (caseQ s).pos ∧ logOK (caseQ s) := by
  simp only [caseQ]
  split
  · exact ⟨rfl, Nat.le.refl, hl⟩
  · split
    · exact ⟨rfl, by dsimp only; omega, hl⟩
    · exact ⟨rfl, by dsimp only; omega, hl⟩

lemma caseG_inv (s : ExpSt) (h : s.trail ≤ s.pos) (hl : logOK s) :
    (caseG s).trail = s.trail ∧ s.pos ≤ (caseG s).pos ∧ logOK (caseG s) := by
  simp only [caseG]
  split
  · exact ⟨rfl, Nat.le.refl, hl⟩
  · split
    · exact ⟨rfl, by simp only [wByte]; omega,
        logOK_cons (show s.trail ≤ s.pos + 1 from Nat.le_succ_of_le h) hl⟩
    · exact ⟨rfl, by dsimp only; omega, hl⟩

lemma caseL_inv (s : ExpSt) (h : s.trail ≤ s.pos) (hl : logOK s) :
    (caseL s).trail = s.trail ∧ s.pos ≤ (caseL s).pos ∧ logOK (caseL s) := by
  simp only [caseL]
  split
  · exact ⟨rfl, Nat.le.refl, hl⟩
  · split
    · exact ⟨rfl, by simp only [wByte]; omega,
        logOK_cons (show s.trail ≤ s.pos + 1 from Nat.le_succ_of_le h) hl⟩
    · exact ⟨rfl, by dsimp only; omega, hl⟩

lemma expandBranch_inv (s : ExpSt) (c : Nat) (h : s.trail ≤ s.pos) (hl : logOK s) :
    (expandBranch s c).1.trail ≤ (expandBranch s c).1.pos ∧ logOK (expandBranch s c).1 := by
  simp only [expandBranch]
  split
  · have hA : (ExpSt.mk s.data (s.pos + 1) s.trail s.log).trail ≤
        (ExpSt.mk s.data (s.pos + 1) s.trail s.log).pos := by dsimp only; omega
    split
    · obtain ⟨e1, e2, e3⟩ := caseA_inv _ hA hl
      exact ⟨by dsimp only at e1 e2 ⊢; omega, e3⟩
    · split
      · obtain ⟨e1, e2, e3⟩ := caseQ_inv _ hA hl
        exact ⟨by dsimp only at e1 e2 ⊢; omega, e3⟩
      · split
        · obtain ⟨e1, e2, e3⟩ := caseG_inv _ hA hl
          exact ⟨by dsimp only at e1 e2 ⊢; omega, e3⟩
        · split
          · obtain ⟨e1, e2, e3⟩ := caseL_inv _ hA hl
            exact ⟨by dsimp only at e1 e2 ⊢; omega, e3⟩
          · split
            · exact ⟨by dsimp only; omega, hl⟩
            · exact ⟨by dsimp only; omega, hl⟩
  · split
    · exact ⟨by simp only [wByte]; omega, logOK_cons (Nat.le_of_lt (by assumption)) hl⟩
    · exact ⟨h, hl⟩

lemma expandTail_inv (p : ExpSt × Bool) (h : p.1.trail ≤ p.1.pos) (hl : logOK p.1) :
    (expandTail p).1.trail ≤ (expandTail p).1.pos ∧ logOK (expandTail p).1 := by
  rcases p with ⟨s1s, b⟩
  cases b
  · exact ⟨h, hl⟩
  · simp only [expandTail]
    split
    · exact ⟨by dsimp only at h ⊢; omega, hl⟩
    · exact ⟨by dsimp only at h ⊢; omega, hl⟩

lemma expandIter_inv (s : ExpSt) (c : Nat) (h : s.trail ≤ s.pos) (hl : logOK s) :
    (expandIter s c).1.trail ≤ (expandIter s c).1.pos ∧ logOK (expandIter s c).1 := by
  obtain ⟨h1, h2⟩ := expandBranch_inv s c h hl
  exact expandTail_inv _ h1 h2

lemma expandLoop_inv (stop : Nat → Bool) (fuel : Nat) :
    ∀ s : ExpSt, s.trail ≤ s.pos → logOK s →
      (expandLoop stop fuel s).1.trail ≤ (expandLoop stop fuel s).1.pos ∧
        logOK (expandLoop stop fuel s).1 := by
  induction fuel with
  | zero => exact fun s h hl => ⟨h, hl⟩
  | succ n ih =>
    intro s h hl
    simp only [expandLoop]
    split
    · obtain ⟨h1, h2⟩ := expandIter_inv s (curByte s.data s.pos) h hl
      rcases he : expandIter s (curByte s.data s.pos) with ⟨s', b⟩
      rw [he] at h1 h2
      cases b
      · simp only [he]
        exact ⟨h1, h2⟩
      · simp only [he]
        exact ih s' h1 h2
    · exact ⟨h, hl⟩

/-- C1: during every call to `skipAndExpandCharacterRefs` — over any stop
tables, buffer and start position — (a) every write into the shared buffer
is performed at the write cursor `trail` (by construction of `wByte`, the
embedding of the only write statement `r.data[trail] = b` in the source, which
logs the pair of write index and read position), and the logged write index
never exceeds the read position at the time of the write; (b) at exit the
write cursor is at or behind the read cursor; (c) the returned decoded slice
`data[start:trail]` is never longer than the raw region `[start, pos)` that
was scanned. -/
theorem skipAndExpand_write_cursor_invariant (stop stopPure : Nat → Bool)
    (data : List Nat) (pos0 : Nat) :
    (∀ w ∈ (skipAndExpandCharacterRefs stop stopPure data pos0).1.log, w.1 ≤ w.2) ∧
    (skipAndExpandCharacterRefs stop stopPure data pos0).1.trail ≤
      (skipAndExpandCharacterRefs stop stopPure data pos0).1.pos ∧
    (expandResult (skipAndExpandCharacterRefs stop stopPure data pos0).1 pos0).length ≤
      (skipAndExpandCharacterRefs stop stopPure data pos0).1.pos - pos0 := by
  simp only [skipAndExpandCharacterRefs]
  have base := expandLoop_inv stop (data.length + 2)
      (ExpSt.mk data (skipGo stopPure data pos0) (skipGo stopPure data pos0) [])
      Nat.le.refl (fun w hw => absurd hw (List.not_mem_nil w))
  refine ⟨base.2, base.1, ?_⟩
  have h1 : (expandResult (expandLoop stop (data.length + 2)
      (ExpSt.mk data (skipGo stopPure data pos0) (skipGo stopPure data pos0) [])).1 pos0).length ≤
      (expandLoop stop (data.length + 2)
      (ExpSt.mk data (skipGo stopPure data pos0) (skipGo stopPure data pos0) [])).1.trail - pos0 := by
    simp only [expandResult, List.length_take]
    exact Nat.min_le_left _ _
  exact le_trans h1 (Nat.sub_le_sub_right base.1 pos0)

/-! ## C2: what the recognized entity references decode to

`entityDemo` is the byte rendering of the text run
`a&amp;b&lt;c&gt;d&quot;e&apos;f` followed by the terminating less-than that
ends a text run (the claim's example input, in text context). -/

def entityDemo : List Nat :=
  [97, 38, 97, 109, 112, 59, 98, 38, 108, 116, 59, 99, 38, 103, 116, 59,
   100, 38, 113, 117, 111, 116, 59, 101, 38, 97, 112, 111, 115, 59, 102, 60]

/-- C2 counterexample: decoding the claim's example text does NOT produce
the claimed bytes of `a&b<c>d"e\f` (byte 34, double quote, at index 7): the
`&quot;` branch of the source consumes the reference but never writes the
double quote into the buffer, so the raw byte left under the write cursor
(here the ampersand, 38) ends up in the decoded value instead. -/
theorem skipAndExpand_quot_counterexample :
    expandResult (skipAndExpandCharacterRefs lookupText lookupTextPureNoWS entityDemo 0).1 0 ≠
      [97, 38, 98, 60, 99, 62, 100, 34, 101, 92, 102] := by decide

/-- C2 amended: the decoder rewrites `&lt;` to `<` (60), `&gt;` to `>` (62)
and `&apos;` to a backslash (92, the documented quirk); `&amp;` is consumed
leaving the raw ampersand byte under the write cursor in place (which equals
`&` precisely when no earlier reference has displaced the cursor), and
`&quot;` is likewise consumed without writing its replacement, so the byte
already under the write cursor (again `&` in these runs) is emitted instead
of a double quote.  In particular decoding `a&amp;b&lt;c&gt;d&quot;e&apos;f`
succeeds and produces `a&b<c>d&e\f`, and each reference decoded alone after
the byte `x` produces `x&`, `x<`, `x>`, `x&` and a backslash respectively. -/
theorem skipAndExpand_entity_decodes :
    ((skipAndExpandCharacterRefs lookupText lookupTextPureNoWS entityDemo 0).2 = true ∧
      expandResult (skipAndExpandCharacterRefs lookupText lookupTextPureNoWS entityDemo 0).1 0 =
        [97, 38, 98, 60, 99, 62, 100, 38, 101, 92, 102]) ∧
    expandResult (skipAndExpandCharacterRefs lookupText lookupTextPureNoWS
        [120, 38, 97, 109, 112, 59, 60] 0).1 0 = [120, 38] ∧
    expandResult (skipAndExpandCharacterRefs lookupText lookupTextPureNoWS
        [120, 38, 108, 116, 59, 60] 0).1 0 = [120, 60] ∧
    expandResult (skipAndExpandCharacterRefs lookupText lookupTextPureNoWS
        [120, 38, 103, 116, 59, 60] 0).1 0 = [120, 62] ∧
    expandResult (skipAndExpandCharacterRefs lookupText lookupTextPureNoWS
        [120, 38, 113, 117, 111, 116, 59, 60] 0).1 0 = [120, 38] ∧
    expandResult (skipAndExpandCharacterRefs lookupText lookupTextPureNoWS
        [120, 38, 97, 112, 111, 115, 59, 60] 0).1 0 = [120, 92] := by decide

/-! ## The document tree model

`GenericNode` in the source carries a node type, name and value byte slices,
an attribute chain and a child chain realized through
`firstChild`/`lastChild`/`prev`/`next` pointers.  The embedding represents a
node together with the subtree hanging off its child chain as a rose tree:
`firstChild` is the head of the `children` list, a node's `next` sibling is
the node after it in its parent's `children` list, and `lastChild` is the
last entry.  Pointer-based traversals receive the chain of following
siblings as an explicit list argument where they need it. -/

/-- The `NodeType` enum of the source. -/
inductive NT where
  | Document
  | Element
  | Data
  | Cdata
  | Comment
  | Declaration
  | Doctype
  | Pi
deriving DecidableEq

/-- A `GenericNode` with its subtree: node type, `Name`, `Value`, attribute
chain (as name/value pairs) and child chain. -/
inductive GNode where
  | mk : NT → List Nat → List Nat → List (List Nat × List Nat) → List GNode → GNode

def GNode.ntype : GNode → NT
  | .mk t _ _ _ _ => t

def GNode.name : GNode → List Nat
  | .mk _ n _ _ _ => n

def GNode.value : GNode → List Nat
  | .mk _ _ v _ _ => v

def GNode.attrs : GNode → List (List Nat × List Nat)
  | .mk _ _ _ a _ => a

def GNode.children : GNode → List GNode
  | .mk _ _ _ _ c => c

/-- The recursive closure `trav` inside `SendChildElements`: emit the node
itself, then recurse into the first child (whose own sibling context is the
rest of the children), then recurse into the next sibling (whose context is
the rest of `after`).  `after` is the chain of siblings following the node,
reached through the `next` pointer in the source. -/
def trav : GNode → List GNode → List GNode
  | .mk t n v a cs, after =>
    GNode.mk t n v a cs ::
      ((match cs with
        | [] => []
        | c :: cs2 => trav c cs2) ++
       (match after with
        | [] => []
        | nx :: ns => trav nx ns))
termination_by g after => sizeOf g + sizeOf after

/-- Method `(*GenericNode).SendChildElements`, as the list of nodes sent on the
channel, in order.  Called on a tree root the sibling context is empty. -/
def SendChildElements (g : GNode) (after : List GNode) : List GNode := trav g after

/-- Method `(*GenericNode).CountChildren`: the source counts the nodes produced by
`SendChildElements` (not the direct children). -/
def CountChildren (g : GNode) (after : List GNode) : Nat :=
  (SendChildElements g after).length

mutual

/-- Modelled from the spec: a textbook recursive pre-order depth-first
traversal — visit the node, then the subtrees of its children left to
right.  This is the reference the traversal claims compare against. -/
def preorder : GNode → List GNode
  | .mk t n v a cs => GNode.mk t n v a cs :: preorderF cs

/-- Pre-order traversal of a forest, left to right. -/
def preorderF : List GNode → List GNode
  | [] => []
  | c :: cs => preorder c ++ preorderF cs

end

/-- The `for n := g.firstChild; ; n = n.next` loop of `SendCloseChildren`:
sends the current node and stops after sending the node equal to
`g.lastChild`, which for a consistent chain is the final list entry. -/
def closeLoop : List GNode → List GNode
  | [] => []
  | [n] => [n]
  | n :: rest => n :: closeLoop rest

/-- Method `(*GenericNode).SendCloseChildren`, as the list of nodes sent on the
channel: the guard returns the empty sequence when `firstChild` is nil,
otherwise the loop walks the sibling chain up to `lastChild`. -/
def SendCloseChildren (g : GNode) : List GNode :=
  match g.children with
  | [] => []
  | c :: cs => closeLoop (c :: cs)

lemma trav_eq_preorder_aux :
    ∀ N : Nat, ∀ g : GNode, ∀ after : List GNode, sizeOf g + sizeOf after ≤ N →
      trav g after = preorder g ++ preorderF after := by
  intro N
  induction N with
  | zero =>
    intro g after h
    rcases g with ⟨t, n, v, a, cs⟩
    simp only [GNode.mk.sizeOf_spec] at h
    omega
  | succ N ih =>
    intro g after h
    rcases g with ⟨t, n, v, a, cs⟩
    rw [trav.eq_def]
    rcases cs with _ | ⟨c, cs2⟩ <;> rcases after with _ | ⟨nx, ns⟩
    · simp [preorder, preorderF]
    · have hb : sizeOf nx + sizeOf ns ≤ N := by
        simp only [GNode.mk.sizeOf_spec, List.cons.sizeOf_spec] at h ⊢
        omega
      simp [preorder, preorderF, ih nx ns hb]
    · have hb : sizeOf c + sizeOf cs2 ≤ N := by
        simp only [GNode.mk.sizeOf_spec, List.cons.sizeOf_spec] at h ⊢
        omega
      simp [preorder, preorderF, ih c cs2 hb]
    · have hb1 : sizeOf c + sizeOf cs2 ≤ N := by
        simp only [GNode.mk.sizeOf_spec, List.cons.sizeOf_spec] at h ⊢
        omega
      have hb2 : sizeOf nx + sizeOf ns ≤ N := by
        simp only [GNode.mk.sizeOf_spec, List.cons.sizeOf_spec] at h ⊢
        omega
      simp [preorder, preorderF, ih c cs2 hb1, ih nx ns hb2]

lemma trav_eq_preorder (g : GNode) (after : List GNode) :
    trav g after = preorder g ++ preorderF after :=
  trav_eq_preorder_aux (sizeOf g + sizeOf after) g after Nat.le.refl

/-- C3: the sequence `SendChildElements` sends satisfies the recursive
equation — the node itself, then the sequence of its first child (whose
sibling context is the remaining children), then the sequence of its next
sibling (with the remaining sibling context), each part empty when the
corresponding pointer is nil — and, invoked on a tree root with no following
siblings (in particular the Document root), it is exactly the textbook
recursive pre-order depth-first traversal. -/
theorem SendChildElements_preorder :
    (∀ (t : NT) (n v : List Nat) (a : List (List Nat × List Nat))
        (cs after : List GNode),
      SendChildElements (GNode.mk t n v a cs) after =
        GNode.mk t n v a cs ::
          ((match cs with
            | [] => []
            | c :: cs2 => SendChildElements c cs2) ++
           (match after with
            | [] => []
            | nx :: ns => SendChildElements nx ns))) ∧
    ∀ g : GNode, SendChildElements g [] = preorder g := by
  constructor
  · intro t n v a cs after
    show trav _ _ = _
    rw [trav.eq_def]
    rfl
  · intro g
    show trav _ _ = _
    rw [trav_eq_preorder, preorderF, List.append_nil]

lemma closeLoop_id : ∀ l : List GNode, closeLoop l = l
  | [] => rfl
  | [_] => rfl
  | n :: m :: rest => congrArg (n :: ·) (closeLoop_id (m :: rest))

/-- C6: `SendCloseChildren` sends exactly the direct children of the node in
first-to-last sibling order — none of their descendants, and the empty
sequence when the node has no children. -/
theorem SendCloseChildren_direct_children :
    ∀ g : GNode, SendCloseChildren g = g.children := by
  intro g
  rcases g with ⟨t, n, v, a, cs⟩
  rcases cs with _ | ⟨c, cs2⟩
  · rfl
  · exact closeLoop_id (c :: cs2)

/-- A childless element node (the `name` element of the minimal document). -/
def leafNode : GNode := GNode.mk NT.Element [110, 97, 109, 101] [] [] []

/-- The Document tree of `<root><name></name></root>`: Document with one
Element child `root` with one Element child `name`. -/
def docNode : GNode :=
  GNode.mk NT.Document [] [] []
    [GNode.mk NT.Element [114, 111, 111, 116] [] [] [leafNode]]

/-- C5 evaluation: `CountChildren` does not return the number of immediate
children.  On a childless node it returns 1 (the node itself is counted,
because the source counts the sequence of `SendChildElements`, the full
pre-order subtree walk), and on the minimal document tree it returns 3 where
the Document root has exactly 1 immediate child. -/
theorem CountChildren_counts_subtree :
    (CountChildren leafNode [] = 1 ∧ leafNode.children.length = 0) ∧
    (CountChildren docNode [] = 3 ∧ docNode.children.length = 1) := by
  refine ⟨⟨?_, rfl⟩, ?_, rfl⟩ <;>
    simp [CountChildren, SendChildElements, trav_eq_preorder, preorder, preorderF,
      leafNode, docNode]

/-! ## Attribute-chain mutation operations

The attribute chain of one node `g` is modelled as the list of attribute
identifiers in chain order plus the parent back-references the operations
mutate: `nodeParent` is the `Parent` field of `g` itself (mutated — by the
source text — in `PrependAttribute`), and `attrParent i` is the `Parent`
field of attribute `i`.  The `prev`/`next` pointer surgery of the source
corresponds to the list shape. -/

structure AttrState where
  chain : List Nat
  nodeParent : Option Nat
  attrParent : Nat → Option Nat

/-- Method `(*GenericNode).AppendAttribute` (genericnode revision with the full
operation set): link `a` after `lastAttribute` (or make it the only entry)
and set `a.Parent = g`. -/
def AppendAttribute (g a : Nat) (s : AttrState) : AttrState :=
  { s with
    chain := if s.chain = [] then [a] else s.chain ++ [a]
    attrParent := fun x => if x = a then some g else s.attrParent x }

/-- Method `(*GenericNode).PrependAttribute`: link `a` before `firstAttribute` (or
make it the only entry); the final statement of the source is `g.Parent = g`
— it mutates the parent field of the NODE, not of the attribute, so
`a.Parent` is left untouched. -/
def PrependAttribute (g a : Nat) (s : AttrState) : AttrState :=
  { s with
    chain := a :: s.chain
    nodeParent := some g }

/-- Splice of `a` before the first occurrence of `w` — the `prev`/`next` splice of
`InsertAttribute`'s general branch. -/
def spliceBefore (l : List Nat) (w a : Nat) : List Nat :=
  match l with
  | [] => []
  | x :: xs => if x = w then a :: x :: xs else x :: spliceBefore xs w a

/-- Method `(*GenericNode).InsertAttribute`: before the first attribute it defers to
`PrependAttribute`; otherwise it panics (`none`) unless `w.Parent == g`, and
splices `a` in front of `w` setting `a.Parent = g`. -/
def InsertAttribute (g w a : Nat) (s : AttrState) : Option AttrState :=
  if s.chain.head? = some w then some (PrependAttribute g a s)
  else if s.attrParent w ≠ some g then none
  else some
    { s with
      chain := spliceBefore s.chain w a
      attrParent := fun x => if x = a then some g else s.attrParent x }

/-- Node `g = 1` with an empty attribute chain, attribute ids `7` and `9`
fresh (no parent set). -/
def attrS0 : AttrState :=
  { chain := [], nodeParent := none, attrParent := fun _ => none }

/-- C7: evaluation at a concrete failing input.  After
`g.PrependAttribute(a)` on a node `g = 1` with an empty chain and a fresh
attribute `a = 7`, the parent of `a` is still unset — the claimed
`a.Parent == g` fails — while the node's own parent has been set to the node
itself (the source's `g.Parent = g`).  `InsertAttribute` in front of the
first attribute defers to `PrependAttribute` and inherits the defect, while
`AppendAttribute` does establish `a.Parent == g` as the claim states. -/
theorem PrependAttribute_leaves_parent_unset :
    (PrependAttribute 1 7 attrS0).attrParent 7 = none ∧
    (PrependAttribute 1 7 attrS0).nodeParent = some 1 ∧
    (AppendAttribute 1 7 attrS0).attrParent 7 = some 1 ∧
    ((InsertAttribute 1 7 9 (AppendAttribute 1 7 attrS0)).map
        (fun s => s.attrParent 9) = some none) := by
  refine ⟨rfl, rfl, rfl, rfl⟩

/-! ## The parsing engine

Parser state is the buffer (mutated in place by entity expansion) plus the
read position.  Errors are a closed enumeration of the `fmt.Errorf` sites of
the source; `Parse` wraps them with `contextError`, which only decorates the
message and never changes control flow, so the wrapper is not modelled. -/

structure PSt where
  data : List Nat
  pos : Nat
deriving DecidableEq

inductive Err where
  | expectedLt (found : Nat)
  | unexpectedEOF
  | eofShort
  | badCdataIntro
  | unexpectedEOFAt
  | unrecognizedNode
  | unexpectedEndOfData
  | unexpectedEndOfFile
  | declClose
  | piTarget
  | commentDashes
  | nodeName
  | expectEq
  | expectQuote
  | attrValue
  | endQuote
  | expectGtAfterSlash
  | unknownEndType
  | closingTagMismatch (closeTag : List Nat)
  | expectGt
  | appendData
  | nilAppend
  | utf16
  | fuelOut
deriving DecidableEq

def curP (s : PSt) : Nat := curByte s.data s.pos

/-- Call `r.skip(lookupWhitespace)`. -/
def skipWs (s : PSt) : PSt := { s with pos := skipGo lookupWhitespace s.data s.pos }

/-- The Go slice `data[a:b]`. -/
def sliceRange (data : List Nat) (a b : Nat) : List Nat := (data.drop a).take (b - a)

/-- Function `bytes.ToLower`, on the ASCII range the source compares against. -/
def toLowerByte (c : Nat) : Nat := if 65 ≤ c ∧ c ≤ 90 then c + 32 else c

/-- Method `(*RunXML).skipPastChar(b)`: advance, fail when the position reaches
`len-1`, stop one past the first occurrence of `b`. -/
def skipPastCharFrom (b : Nat) (data : List Nat) : Nat → Nat → Except Err Nat
  | 0, _ => .error .fuelOut
  | n + 1, pos =>
    let p := pos + 1
    if data.length - 1 ≤ p then .error .unexpectedEndOfData
    else if curByte data p = b then .ok (p + 1)
    else skipPastCharFrom b data n p

def skipPastChar (b : Nat) (s : PSt) : Except Err PSt :=
  match skipPastCharFrom b s.data (s.data.length + 2) s.pos with
  | .error e => .error e
  | .ok p => .ok { s with pos := p }

/-- Method `(*RunXML).skipToChar(b)`: advance, fail at the end of data, stop on the
first occurrence of `b`. -/
def skipToCharFrom (b : Nat) (data : List Nat) : Nat → Nat → Except Err Nat
  | 0, _ => .error .fuelOut
  | n + 1, pos =>
    let p := pos + 1
    if data.length ≤ p then .error .unexpectedEndOfData
    else if curByte data p = b then .ok p
    else skipToCharFrom b data n p

def skipToChar (b : Nat) (s : PSt) : Except Err PSt :=
  match skipToCharFrom b s.data (s.data.length + 2) s.pos with
  | .error e => .error e
  | .ok p => .ok { s with pos := p }

/-- Method `(*RunXML).skipToChars(b)`: scan for the byte pair `b`; on failure the
position is decremented once (`found = false`). -/
def skipToCharsFrom (b : List Nat) (data : List Nat) : Nat → Nat → Nat × Bool
  | 0, pos => (pos, false)
  | n + 1, pos =>
    if pos < data.length then
      if hasPfx (data.drop pos) b then (pos, true)
      else skipToCharsFrom b data n (pos + 1)
    else (pos - 1, false)

/-- The comment scan loop: advance (`skipBytes(1)`, failing at end of data)
until the buffer at the position starts with `--`. -/
def commentScanFrom (data : List Nat) : Nat → Nat → Except Err Nat
  | 0, _ => .error .fuelOut
  | n + 1, pos =>
    if hasPfx (data.drop pos) [45, 45] then .ok pos
    else if data.length ≤ pos + 1 then .error .unexpectedEndOfFile
    else commentScanFrom data n (pos + 1)

/-- Method `(*RunXML).parseComment`: scan to the first `--`, require the byte after
it to be `>` (otherwise the comment contained a bare `--`), take the body as
the value, and step past the `>` (`skipBytes(1)`, its error ignored). -/
def parseComment (s : PSt) : Except Err (GNode × PSt) :=
  match commentScanFrom s.data (s.data.length + 2) s.pos with
  | .error e => .error e
  | .ok p =>
    if s.data.length ≤ p + 2 then .error .unexpectedEndOfFile
    else
      let p2 := p + 2
      if curByte s.data p2 ≠ 62 then .error .commentDashes
      else
        let value := sliceRange s.data s.pos (p2 - 2)
        let pEnd := if s.data.length ≤ p2 + 1 then p2 else p2 + 1
        .ok (GNode.mk NT.Comment [] value [] [], { s with pos := pEnd })

/-- Method `(*RunXML).parseCDATA`: content up to the first `]]` (which is not
consumed). -/
def parseCDATA (s : PSt) : Except Err (GNode × PSt) :=
  match skipToCharsFrom [93, 93] s.data (s.data.length + 2) s.pos with
  | (_, false) => .error .unexpectedEndOfFile
  | (p, true) =>
    .ok (GNode.mk NT.Cdata [] (sliceRange s.data s.pos p) [] [], { s with pos := p })

/-- Method `(*RunXML).parsePI`: target name, whitespace, then raw instruction text
up to `?>` (consumed). -/
def parsePI (s : PSt) : Except Err (GNode × PSt) :=
  let p1 := skipGo lookupNodeName s.data s.pos
  if s.pos = p1 then .error .piTarget
  else
    let name := sliceRange s.data s.pos p1
    let p2 := skipGo lookupWhitespace s.data p1
    match skipToCharsFrom [63, 62] s.data (s.data.length + 2) p2 with
    | (_, false) => .error .unexpectedEndOfFile
    | (p3, true) =>
      .ok (GNode.mk NT.Pi name (sliceRange s.data p2 p3) [] [], { s with pos := p3 + 2 })

/-- The inner bracket-depth loop of `parseDocType`: `depth` counts unmatched
`[`, suspended while `insideElement` (set on a `<!` prefix, cleared on `>`);
each step advances one byte (`getNextByte`).  The source loops forever on
unbalanced input running past the buffer; the fuel bound makes that case a
distinguished error. -/
def doctypeInner (data : List Nat) : Nat → Nat → Bool → Nat → Except Err Nat
  | 0, _, _, _ => .error .fuelOut
  | n + 1, pos, insideElement, depth =>
    if depth = 0 then .ok pos
    else
      let c := curByte data pos
      let depth1 :=
        if c = 91 && !insideElement then depth + 1
        else if c = 93 && !insideElement then depth - 1
        else depth
      let ie1 := if c = 62 then false else insideElement
      let ie2 := if hasPfx (data.drop pos) [60, 33] then true else ie1
      doctypeInner data n (pos + 1) ie2 depth1

/-- The outer loop of `parseDocType`: scan to the closing `>`, entering the
bracket-depth loop on `[` (its leading `skipBytes(1)` error is ignored by
the source) and otherwise advancing one byte (`skipBytes(1)`, failing at end
of data). -/
def doctypeScan (data : List Nat) : Nat → Nat → Except Err Nat
  | 0, _ => .error .fuelOut
  | n + 1, pos =>
    if curByte data pos = 62 then .ok pos
    else if curByte data pos = 91 then
      let p1 := if data.length ≤ pos + 1 then pos else pos + 1
      match doctypeInner data (data.length + 2) p1 false 1 with
      | .error e => .error e
      | .ok p2 => doctypeScan data n p2
    else if data.length ≤ pos + 1 then .error .eofShort
    else doctypeScan data n (pos + 1)

/-- Method `(*RunXML).parseDocType`: value is everything from the entry position to
the terminating `>`, which is then stepped over (`skipBytes(1)`, error
ignored). -/
def parseDocType (s : PSt) : Except Err (GNode × PSt) :=
  match doctypeScan s.data (s.data.length + 3) s.pos with
  | .error e => .error e
  | .ok p =>
    let value := sliceRange s.data s.pos p
    let pEnd := if s.data.length ≤ p + 1 then p else p + 1
    .ok (GNode.mk NT.Doctype [] value [] [], { s with pos := pEnd })

/-- Method `(*RunXML).parseAndAppendData`: run the entity scanner in text context;
a `nil` value is an error; otherwise a Data child carrying the decoded slice
is appended AND the parent's own `Value` is overwritten with the same slice
— unconditionally, on every data run. -/
def parseAndAppendData (cn : GNode) (s : PSt) : Except Err (GNode × PSt) :=
  let r := skipAndExpandCharacterRefs lookupText lookupTextPureNoWS s.data s.pos
  if r.2 = false then .error .appendData
  else
    let value := expandResult r.1 s.pos
    .ok (GNode.mk cn.ntype cn.name value cn.attrs
          (cn.children ++ [GNode.mk NT.Data [] value [] []]),
        { data := r.1.data, pos := r.1.pos })

/-- The tail of the closing-tag branch of `parseNodeContents`: skip
whitespace after the closing name, require `>`, and consume it. -/
def closeFinish (cn : GNode) (s : PSt) : Except Err (GNode × PSt) :=
  let s1 := skipWs s
  if curP s1 ≠ 62 then .error .expectGt
  else .ok (cn, { s1 with pos := s1.pos + 1 })

mutual

/-- Method `(*RunXML).parseNode`, entered with the position just past a `<`.
Dispatch on the current byte: 63 `?` (XML declaration when the lowercased
three bytes before the position read `xml` and whitespace follows, otherwise
processing instruction), 33 `!` (comment on `--`, CDATA on `[CDATA[`,
DOCTYPE on `DOCTYPE` + whitespace, the NUL sentinel, or an unrecognized
introducer which is skipped past the next `>` and reported), anything else
an element.  A `<!-` not followed by a second `-` falls out of the switch to
`skipToChar('>')` and returns a nil node with a nil error — hence the
`Option GNode`. -/
def parseNodeF (vct : Bool) : Nat → PSt → Except Err (Option GNode × PSt)
  | 0, _ => .error .fuelOut
  | fuel + 1, s =>
    let c := curP s
    if c = 63 then
      if s.data.length ≤ s.pos + 4 then .error .unexpectedEOF
      else
        let s1 : PSt := { s with pos := s.pos + 4 }
        if (sliceRange s1.data (s1.pos - 3) s1.pos).map toLowerByte = [120, 109, 108] ∧
            lookupWhitespace (curP s1) then
          match parseXMLDeclarationF fuel { s1 with pos := s1.pos + 1 } with
          | .error e => .error e
          | .ok (nd, s2) => .ok (some nd, s2)
        else
          match parsePI { s1 with pos := s1.pos - 3 } with
          | .error e => .error e
          | .ok (nd, s2) => .ok (some nd, s2)
    else if c = 33 then
      let s1 : PSt := { s with pos := s.pos + 1 }
      let c2 := curP s1
      if c2 = 45 then
        let s2 : PSt := { s1 with pos := s1.pos + 1 }
        if curP s2 = 45 then
          match parseComment { s2 with pos := s2.pos + 1 } with
          | .error e => .error e
          | .ok (nd, s3) => .ok (some nd, s3)
        else
          match skipToChar 62 s2 with
          | .error e => .error e
          | .ok s3 => .ok (none, s3)
      else if c2 = 91 then
        if s1.data.length ≤ s1.pos + 1 then .error .eofShort
        else
          let s2 : PSt := { s1 with pos := s1.pos + 1 }
          if ¬ hasPfx (s2.data.drop s2.pos) [67, 68, 65, 84, 65, 91] then .error .badCdataIntro
          else
            let s3 : PSt := if s2.data.length ≤ s2.pos + 6 then s2 else { s2 with pos := s2.pos + 6 }
            match parseCDATA s3 with
            | .error e => .error e
            | .ok (nd, s4) => .ok (some nd, s4)
      else if c2 = 68 then
        if s1.data.length ≤ s1.pos + 1 then .error .eofShort
        else
          let s2 : PSt := { s1 with pos := s1.pos + 1 }
          if hasPfx (s2.data.drop s2.pos) [79, 67, 84, 89, 80, 69] ∧
              lookupWhitespace (curByte s2.data (s2.pos + 6)) then
            let s3 : PSt := if s2.data.length ≤ s2.pos + 6 then s2 else { s2 with pos := s2.pos + 6 }
            match parseDocType s3 with
            | .error e => .error e
            | .ok (nd, s4) => .ok (some nd, s4)
          else .error .unexpectedEOFAt
      else if c2 = 0 then .error .unexpectedEOFAt
      else
        match skipPastChar 62 s1 with
        | .error e => .error e
        | .ok _ => .error .unrecognizedNode
    else
      match parseElementF vct fuel s with
      | .error e => .error e
      | .ok (nd, s2) => .ok (some nd, s2)

/-- Method `(*RunXML).parseElement`: scan the name (empty is an error), skip
whitespace, parse attributes, then either `>` (recurse into contents) or
`/>` (self-closing). -/
def parseElementF (vct : Bool) : Nat → PSt → Except Err (GNode × PSt)
  | 0, _ => .error .fuelOut
  | fuel + 1, s =>
    let p1 := skipGo lookupNodeName s.data s.pos
    if s.pos = p1 then .error .nodeName
    else
      let name := sliceRange s.data s.pos p1
      let s1 := skipWs { data := s.data, pos := p1 }
      match parseAttributesF fuel (GNode.mk NT.Element name [] [] []) s1 with
      | (_, _, some e) => .error e
      | (elem, s2, none) =>
        let c := curP s2
        if c = 62 then
          parseNodeContentsF vct fuel elem { s2 with pos := s2.pos + 1 }
        else if c = 47 then
          let s3 : PSt := { s2 with pos := s2.pos + 1 }
          if curP s3 ≠ 62 then .error .expectGtAfterSlash
          else .ok (elem, { s3 with pos := s3.pos + 1 })
        else .error .unknownEndType

/-- Method `(*RunXML).parseAttributes`: while the current byte is an attribute-name
character — name, whitespace, `=`, whitespace, quote, entity-decoded value
via the quote-specific table pair, matching close quote, whitespace.  The
attribute node is appended (with its name) before the value is parsed, and
the error is returned alongside the element and state because one caller
(`parseXMLDeclaration`) ignores it. -/
def parseAttributesF : Nat → GNode → PSt → GNode × PSt × Option Err
  | 0, elem, s => (elem, s, some .fuelOut)
  | fuel + 1, elem, s =>
    if lookupAttributeName (curP s) then
      let start := s.pos
      let p1 := skipGo lookupAttributeName s.data (s.pos + 1)
      let aname := sliceRange s.data start p1
      let elem1 := GNode.mk elem.ntype elem.name elem.value
        (elem.attrs ++ [(aname, [])]) elem.children
      let s1 := skipWs { data := s.data, pos := p1 }
      if curP s1 ≠ 61 then (elem1, s1, some .expectEq)
      else
        let s2 := skipWs { s1 with pos := s1.pos + 1 }
        let q := curP s2
        if q ≠ 39 ∧ q ≠ 34 then (elem1, s2, some .expectQuote)
        else
          let s3 : PSt := { s2 with pos := s2.pos + 1 }
          let r :=
            if q = 39 then
              skipAndExpandCharacterRefs lookupAttributeDataSQ lookupAttributeDataSQPure
                s3.data s3.pos
            else
              skipAndExpandCharacterRefs lookupAttributeDataDQ lookupAttributeDataDQPure
                s3.data s3.pos
          let s4 : PSt := { data := r.1.data, pos := r.1.pos }
          if r.2 = false then (elem1, s4, some .attrValue)
          else
            let value := expandResult r.1 s3.pos
            let elem2 := GNode.mk elem.ntype elem.name elem.value
              (elem.attrs ++ [(aname, value)]) elem.children
            if curP s4 ≠ q then (elem2, s4, some .endQuote)
            else
              let s5 := skipWs { s4 with pos := s4.pos + 1 }
              parseAttributesF fuel elem2 s5
    else (elem, s, none)

/-- Method `(*RunXML).parseNodeContents`, top of the `for` loop: skip whitespace
then dispatch (`afterDataF`). -/
def parseNodeContentsF (vct : Bool) : Nat → GNode → PSt → Except Err (GNode × PSt)
  | 0, _, _ => .error .fuelOut
  | fuel + 1, cn, s => afterDataF vct fuel cn (skipWs s)

/-- The `AfterDataNode` label of `parseNodeContents`: dispatch on the
current byte WITHOUT skipping whitespace.  `</` is the closing tag (name
compared byte-for-byte against the element's name only when
`ValidateClosingTag` is set); any other `<` is a child node (appended unless
nil); anything else is a data run followed by a jump back to this label. -/
def afterDataF (vct : Bool) : Nat → GNode → PSt → Except Err (GNode × PSt)
  | 0, _, _ => .error .fuelOut
  | fuel + 1, cn, s =>
    let c := curP s
    if c = 60 then
      let s1 : PSt := { s with pos := s.pos + 1 }
      if curP s1 = 47 then
        let s2 : PSt := { s1 with pos := s1.pos + 1 }
        if vct then
          let p1 := skipGo lookupNodeName s2.data s2.pos
          let closeTag := sliceRange s2.data s2.pos p1
          if closeTag ≠ cn.name then .error (.closingTagMismatch closeTag)
          else closeFinish cn { data := s2.data, pos := p1 }
        else
          closeFinish cn { data := s2.data, pos := skipGo lookupNodeName s2.data s2.pos }
      else
        match parseNodeF vct fuel s1 with
        | .error e => .error e
        | .ok (some ch, s2) =>
          parseNodeContentsF vct fuel
            (GNode.mk cn.ntype cn.name cn.value cn.attrs (cn.children ++ [ch])) s2
        | .ok (none, s2) => parseNodeContentsF vct fuel cn s2
    else
      match parseAndAppendData cn s with
      | .error e => .error e
      | .ok (cn2, s2) => afterDataF vct fuel cn2 s2

/-- Method `(*RunXML).parseXMLDeclaration`: whitespace, attributes (the source
discards the attribute-parse error), then the `?>` terminator. -/
def parseXMLDeclarationF : Nat → PSt → Except Err (GNode × PSt)
  | 0, _ => .error .fuelOut
  | fuel + 1, s =>
    let s1 := skipWs s
    match parseAttributesF fuel (GNode.mk NT.Declaration [] [] [] []) s1 with
    | (nd, s2, _) =>
      if ¬ hasPfx (s2.data.drop s2.pos) [63, 62] then .error .declClose
      else .ok (nd, { s2 with pos := s2.pos + 2 })

end

/-- The main loop of `(*RunXML).Parse`: while the position is inside the
buffer — skip whitespace; break (normal end of file) when the position is
the LAST byte of the buffer; otherwise demand `<` (anything else is the
"expected '<'" error), parse one node and append it to the Document. -/
def parseTopLoop (vct : Bool) : Nat → PSt → GNode → Except Err (GNode × PSt)
  | 0, _, _ => .error .fuelOut
  | fuel + 1, s, doc =>
    if s.pos < s.data.length then
      let s1 := skipWs s
      if s1.pos = s1.data.length - 1 then .ok (doc, s1)
      else
        let c := curP s1
        if c = 60 then
          match parseNodeF vct fuel { s1 with pos := s1.pos + 1 } with
          | .error e => .error e
          | .ok (some ch, s2) =>
            parseTopLoop vct fuel s2
              (GNode.mk doc.ntype doc.name doc.value doc.attrs (doc.children ++ [ch]))
          | .ok (none, _) => .error .nilAppend
        else .error (.expectedLt c)
    else .ok (doc, s)

/-- Method `(*RunXML).skipBOM`: a UTF-8 BOM advances the position by 3; a UTF-16
BOM makes the source transcode via `decodeUTF16`, a function outside the
provided sources — embedded as the distinguished marker `utf16`, never
reached by any run in this development. -/
def skipBOM (s : PSt) : Except Err PSt :=
  if hasPfx s.data [239, 187, 191] then .ok { s with pos := s.pos + 3 }
  else if hasPfx s.data [255, 254] then .error .utf16
  else if hasPfx s.data [254, 255] then .error .utf16
  else .ok s

/-- Method `(*RunXML).Parse` on buffer `b` with the `ValidateClosingTag` setting
`vct`: position 0, fresh Document node, BOM skip, main loop.  The fuel is
ample: every recursion step either consumes input or descends past a byte
already consumed. -/
def ParseGo (vct : Bool) (b : List Nat) : Except Err GNode :=
  match skipBOM { data := b, pos := 0 } with
  | .error e => .error e
  | .ok s =>
    match parseTopLoop vct (8 * (b.length + 4)) s (GNode.mk NT.Document [] [] [] []) with
    | .error e => .error e
    | .ok (doc, _) => .ok doc

/-- Constructor `NewDefaultRunXML` turns closing-tag validation on. -/
def NewDefaultValidateClosingTag : Bool := true

/-- Flag `true` exactly on the error results of a parse. -/
def isError {α : Type} (x : Except Err α) : Bool :=
  match x with
  | .error _ => true
  | .ok _ => false

@[simp] lemma skipWs_data (s : PSt) : (skipWs s).data = s.data := rfl

/-- C10: `Parse` of the empty buffer returns a nil error together with a
Document node with no children, no attributes and empty name and value — the
main loop guard fails immediately and empty input is not a parse failure. -/
theorem Parse_empty_buffer :
    ParseGo NewDefaultValidateClosingTag [] = .ok (GNode.mk NT.Document [] [] [] []) := rfl

/-- The bytes of `<a>one<b></b>two</a>`: an element whose content holds two
text runs separated by a child element. -/
def dataRunsInput : List Nat :=
  [60, 97, 62, 111, 110, 101, 60, 98, 62, 60, 47, 98, 62, 116, 119, 111, 60, 47, 97, 62]

/-- C4 evaluation at the failing input `<a>one<b></b>two</a>`: every data
run is appended as a Data child (values `one` then `two`), but the element's
`Value` is overwritten by `parseAndAppendData` on EVERY run and therefore
ends as the LAST run `two` = [116,119,111], not the first run `one` =
[111,110,101] that the claim (and the `NodeType` documentation of the
source) states. -/
theorem Parse_element_value_is_last_data_run :
    ParseGo NewDefaultValidateClosingTag dataRunsInput =
      .ok (GNode.mk NT.Document [] [] []
        [GNode.mk NT.Element [97] [116, 119, 111] []
          [GNode.mk NT.Data [] [111, 110, 101] [] [],
           GNode.mk NT.Element [98] [] [] [],
           GNode.mk NT.Data [] [116, 119, 111] [] []]]) ∧
    [116, 119, 111] ≠ [111, 110, 101] := by
  exact ⟨rfl, by decide⟩

/-- The bytes of `<a></b>`. -/
def mismatchedClose : List Nat := [60, 97, 62, 60, 47, 98, 62]

/-- C9: with closing-tag validation on (the `NewDefaultRunXML` default),
`<a></b>` fails with the mismatched-closing-tag error carrying the closing
name `b`; with it off, the same input parses successfully, the closing tag
being consumed without any name comparison. -/
theorem Parse_validateClosingTag :
    NewDefaultValidateClosingTag = true ∧
    ParseGo NewDefaultValidateClosingTag mismatchedClose =
      .error (.closingTagMismatch [98]) ∧
    ParseGo false mismatchedClose =
      .ok (GNode.mk NT.Document [] [] [] [GNode.mk NT.Element [97] [] [] []]) := by
  exact ⟨rfl, rfl, rfl⟩

/-- The bytes of `<a></a>x`: well-formed element followed by a junk byte in
the LAST buffer position. -/
def trailingJunk : List Nat := [60, 97, 62, 60, 47, 97, 62, 120]

/-- C8 counterexample: the buffer `<a></a>x` holds the non-`<` byte `x`
(120) at top level (position 7, inspected by the main loop after the
element), yet `Parse` returns a NIL error and the one-element document: the
main loop breaks as normal end of file whenever the position after
whitespace skipping is the last byte of the buffer, before the `<` check. -/
theorem Parse_topLevel_junk_at_last_byte_accepted :
    trailingJunk.getD 7 0 = 120 ∧
    ParseGo NewDefaultValidateClosingTag trailingJunk =
      .ok (GNode.mk NT.Document [] [] [] [GNode.mk NT.Element [97] [] [] []]) := by
  exact ⟨rfl, rfl⟩

/-- The bytes of `x<root></root>`. -/
def leadingJunk : List Nat :=
  [120, 60, 114, 111, 111, 116, 62, 60, 47, 114, 111, 111, 116, 62]

/-- C8 amended: whenever the main loop of `Parse`, at the start of an
iteration, is inside the buffer and after whitespace skipping is NOT at the
last byte position and the byte there is not `<` (60), the whole parse
returns a non-nil error — and in particular `Parse` of `x<root></root>`
fails with the "expected '<'" error citing the leading byte `x` (120).  (A
non-`<` byte seen exactly at the last position is instead treated as normal
end of input; see the counterexample.) -/
theorem Parse_topLevel_requires_lt :
    (∀ (vct : Bool) (fuel : Nat) (s : PSt) (doc : GNode),
      1 ≤ fuel →
      s.pos < s.data.length →
      (skipWs s).pos ≠ s.data.length - 1 →
      curP (skipWs s) ≠ 60 →
      isError (parseTopLoop vct fuel s doc) = true) ∧
    ParseGo NewDefaultValidateClosingTag leadingJunk = .error (.expectedLt 120) := by
  constructor
  · intro vct fuel s doc hf h1 h2 h3
    match fuel, hf with
    | n + 1, _ =>
      simp only [parseTopLoop, skipWs_data]
      rw [if_pos h1, if_neg h2, if_neg (by simpa using h3)]
      rfl
  · rfl

/-- Witness for the universal part of the amended top-level claim, at the
concrete two-byte buffer `x<`: position 0 is inside the buffer, after
whitespace skipping it is not the last byte position, the byte there is `x`
(120), and the main loop indeed returns an error. -/
theorem Parse_topLevel_requires_lt_witness :
    (1 ≤ 1 ∧ (0 : Nat) < 2 ∧
      (skipWs (PSt.mk [120, 60] 0)).pos ≠ 2 - 1 ∧
      curP (skipWs (PSt.mk [120, 60] 0)) ≠ 60) ∧
    isError (parseTopLoop true 1 (PSt.mk [120, 60] 0)
      (GNode.mk NT.Document [] [] [] [])) = true :=
  ⟨⟨by decide, by decide, by decide, by decide⟩,
    Parse_topLevel_requires_lt.1 true 1 (PSt.mk [120, 60] 0)
      (GNode.mk NT.Document [] [] [] []) (by decide) (by decide) (by decide) (by decide)⟩

end RunXML
